import Mathlib

/-!
Verification of the completion-script generation engine of
`click-native-completions` against its design specification.

The development shallowly embeds the four Python modules
(`_common.py`, `bash_impl.py`, `zsh_impl.py`, `__init__.py`)
as executable Lean definitions over a plain data model of click
command trees, and proves (or refutes) the specification claims
about the flattener, the shared encoding primitives, the bash and
zsh generators, the generated bash runtime parsing algorithm, and
the façade.
-/

/-! ### Data model

Click options, arguments and commands, restricted to the attributes the
generators read.  An option's `choices` field is `some cs` exactly when
`o.type` is a `click.Choice` carrying the list `cs`. -/

structure ClickOpt where
  opts : List String
  secondaryOpts : List String
  isFlag : Bool
  count : Bool
  multiple : Bool
  nargs : Nat
  choices : Option (List String)
  help : Option String
  hidden : Bool
  deriving DecidableEq, Repr

structure ClickArg where
  humanReadableName : String
  nargs : Int
  required : Bool
  deriving DecidableEq, Repr

inductive Param where
  | opt (o : ClickOpt)
  | arg (a : ClickArg)
  deriving DecidableEq, Repr

/-- Command-tree node: a click `Command` (leaf) or `Group`.  A group's
`children` list mirrors its `commands` dict in insertion order; the dict
key and the child command's own `name` are identified, as click keeps
them equal through `add_command`. -/
inductive Node where
  | leaf (name : String) (hidden : Bool) (params : List Param)
  | group (name : String) (hidden : Bool) (params : List Param) (children : List Node)
  deriving Repr

mutual
def Node.hasDecEq : (a b : Node) → Decidable (a = b)
  | .leaf n1 h1 p1, .leaf n2 h2 p2 =>
    match decEq n1 n2, decEq h1 h2, decEq p1 p2 with
    | isTrue e1, isTrue e2, isTrue e3 => isTrue (by rw [e1, e2, e3])
    | isFalse ne, _, _ => isFalse (by simp only [Node.leaf.injEq]; intro h; exact ne h.1)
    | _, isFalse ne, _ => isFalse (by simp only [Node.leaf.injEq]; intro h; exact ne h.2.1)
    | _, _, isFalse ne => isFalse (by simp only [Node.leaf.injEq]; intro h; exact ne h.2.2)
  | .group n1 h1 p1 c1, .group n2 h2 p2 c2 =>
    match decEq n1 n2, decEq h1 h2, decEq p1 p2, Node.hasDecEqList c1 c2 with
    | isTrue e1, isTrue e2, isTrue e3, isTrue e4 => isTrue (by rw [e1, e2, e3, e4])
    | isFalse ne, _, _, _ => isFalse (by simp only [Node.group.injEq]; intro h; exact ne h.1)
    | _, isFalse ne, _, _ => isFalse (by simp only [Node.group.injEq]; intro h; exact ne h.2.1)
    | _, _, isFalse ne, _ => isFalse (by simp only [Node.group.injEq]; intro h; exact ne h.2.2.1)
    | _, _, _, isFalse ne => isFalse (by simp only [Node.group.injEq]; intro h; exact ne h.2.2.2)
  | .leaf _ _ _, .group _ _ _ _ => isFalse (by intro h; exact Node.noConfusion h)
  | .group _ _ _ _, .leaf _ _ _ => isFalse (by intro h; exact Node.noConfusion h)

def Node.hasDecEqList : (as bs : List Node) → Decidable (as = bs)
  | [], [] => isTrue rfl
  | _ :: _, [] => isFalse (by intro h; exact List.noConfusion h)
  | [], _ :: _ => isFalse (by intro h; exact List.noConfusion h)
  | a :: as, b :: bs =>
    match Node.hasDecEq a b, Node.hasDecEqList as bs with
    | isTrue e1, isTrue e2 => isTrue (by rw [e1, e2])
    | isFalse ne, _ => isFalse (by simp only [List.cons.injEq]; intro h; exact ne h.1)
    | _, isFalse ne => isFalse (by simp only [List.cons.injEq]; intro h; exact ne h.2)
end

instance : DecidableEq Node := Node.hasDecEq

def Node.name : Node → String
  | .leaf n _ _ => n
  | .group n _ _ _ => n

def Node.hidden : Node → Bool
  | .leaf _ h _ => h
  | .group _ h _ _ => h

def Node.isGroup : Node → Bool
  | .leaf _ _ _ => false
  | .group _ _ _ _ => true

def Node.params : Node → List Param
  | .leaf _ _ ps => ps
  | .group _ _ ps _ => ps

/-! ### Python string helpers

Python's `str.startswith`, `str.endswith` and single-space `str.split`,
realised over the character list backing a Lean `String` so that every
definition evaluates inside the kernel. -/

def pyStartswith (s p : String) : Bool := p.data.isPrefixOf s.data

def pyEndswith (s p : String) : Bool := p.data.isSuffixOf s.data

def splitOnSpaceAux : List Char → List Char → List String
  | [], acc => [String.mk acc.reverse]
  | c :: rest, acc =>
    if c = ' ' then String.mk acc.reverse :: splitOnSpaceAux rest []
    else splitOnSpaceAux rest (c :: acc)

/-- Splitting a string on single spaces (the inverse of `" ".join`). -/
def pySplitOnSpace (s : String) : List String := splitOnSpaceAux s.data []

/-- Shell word splitting of an unquoted expansion: split on spaces and
drop empty fields, as `for x in $var` does in the generated bash. -/
def shellWords (s : String) : List String :=
  (pySplitOnSpace s).filter (fun w => w ≠ "")

/-! ### Shared shell encoding primitives (`_common.py`) -/

/-- Translation of `is_repeatable`: `o.count or o.multiple`. -/
def isRepeatable (o : ClickOpt) : Bool := o.count || o.multiple

/-- Translation of `compute_nargs`: `0` for boolean/count flags, else the
declared `nargs`. -/
def computeNargs (o : ClickOpt) : Nat :=
  if o.isFlag || o.count then 0 else o.nargs

/-- Translation of `opt_strs`: `list(o.opts) + list(o.secondary_opts)`. -/
def optStrs (o : ClickOpt) : List String := o.opts ++ o.secondaryOpts

/-- Translation of `slamopts`: spellings shorter than three characters of
an option consuming exactly one argument. -/
def slamopts (o : ClickOpt) : List String :=
  if computeNargs o ≠ 1 then []
  else (optStrs o).filter (fun x => x.length < 3)

def slugifyChar (c : Char) : Char :=
  if c = ' ' then '_' else if c = '-' then '_' else c

/-- Translation of `Completer._slugify`:
`s.replace(" ", "_").replace("-", "_")`.  Both patterns are single
characters, so the two sequential replacements equal one character map
(the first rewrite produces only `_`, which the second leaves alone). -/
def slugify (s : String) : String := String.mk (s.data.map slugifyChar)

/-! ### Tree flattener (`ContextTree`)

`ContextTree.__iter__` yields the group's own context, then its direct
visible non-group children in declaration order, then the full subtree
of each direct visible group child in declaration order; hidden children
are skipped (`if subcmd.hidden: continue`).  Each yielded entry carries
its resolved `command_path`. -/

def leafEntries (path : String) (cs : List Node) : List (String × Node) :=
  (cs.filter fun c => !c.hidden && !c.isGroup).map fun c => (path ++ " " ++ c.name, c)

mutual
def flatten (path : String) (n : Node) : List (String × Node) :=
  match n with
  | .leaf nm h ps => [(path, .leaf nm h ps)]
  | .group nm h ps cs =>
    (path, .group nm h ps cs) :: (leafEntries path cs ++ flattenGroups path cs)

def flattenGroups (path : String) : List Node → List (String × Node)
  | [] => []
  | c :: rest =>
    (if !c.hidden && c.isGroup then flatten (path ++ " " ++ c.name) c else [])
      ++ flattenGroups path rest
end

/-! ### Completer construction (`Completer.__init__`) -/

/-- Python truthiness of an optional string: `None` and `""` are falsy. -/
def pyTruthy : Option String → Bool
  | none => false
  | some s => s ≠ ""

/-- Python `a or b` on optional strings. -/
def pyOrOptStr (a b : Option String) : Option String :=
  if pyTruthy a then a else b

/-- Python `str(...)` rendering of an optional string, as an f-string
interpolation would produce it (`None` renders as `"None"`). -/
def pyStrOfOpt : Option String → String
  | none => "None"
  | some s => s

structure CompleterState where
  name : String
  rootCmdName : Option String
  rootSlug : String
  slug : String
  deriving DecidableEq, Repr

/-- Translation of `Completer.__init__`: resolve
`self.name = command_name or command.name`, raise `ValueError` when the
result is falsy, otherwise derive the slug pair.  `cmdOwnName` is the
root command's own `name` attribute and `commandName` the explicit
override argument. -/
def Completer.construct (cmdOwnName : Option String) (commandName : Option String) :
    Except String CompleterState :=
  match pyOrOptStr commandName cmdOwnName with
  | none => .error "cannot generate completions unless the command name is set"
  | some s =>
    if s = "" then .error "cannot generate completions unless the command name is set"
    else .ok { name := s, rootCmdName := cmdOwnName, rootSlug := slugify s,
               slug := "__" ++ slugify s ++ "__comp" }

/-! ### Bash generator: static tables (`bash_impl.py`)

`_common_info`, `cmd_completer` and `group_completer` emit assignments
into five associative arrays.  Each assignment is modelled as a
key/value pair; the table name is fixed per field, so only key and value
are recorded.  Option-arity values are emitted as the decimal rendering
of `compute_nargs`; they are stored here as the number itself, which is
what the generated runtime reads back. -/

def visibleOptionsOf (n : Node) : List ClickOpt :=
  n.params.filterMap fun p =>
    match p with
    | .opt o => if o.hidden then none else some o
    | .arg _ => none

def argumentsOf (n : Node) : List ClickArg :=
  n.params.filterMap fun p =>
    match p with
    | .opt _ => none
    | .arg a => some a

/-- Value of the `_subcmds` entry: for a group, the space-joined
`commands.keys()` — note the source does not filter hidden children
here; for a command, the empty string. -/
def bashSubcmdsValue : Node → String
  | .leaf _ _ _ => ""
  | .group _ _ _ cs => String.intercalate " " (cs.map Node.name)

def bashOptsValue (n : Node) : String :=
  String.intercalate " " ((visibleOptionsOf n).flatMap optStrs)

def bashSlamoptsValue (n : Node) : String :=
  String.intercalate " " ((visibleOptionsOf n).flatMap slamopts)

def bashOptNargsEntries (path : String) (n : Node) : List (String × Nat) :=
  (visibleOptionsOf n).flatMap fun o =>
    (optStrs o).map fun s => (path ++ " " ++ s, computeNargs o)

def bashOptChoicesEntries (path : String) (n : Node) : List (String × String) :=
  (visibleOptionsOf n).flatMap fun o =>
    match o.choices with
    | some cs => (optStrs o).map fun s => (path ++ " " ++ s, String.intercalate " " cs)
    | none => []

structure BashTables where
  subcmds : List (String × String)
  opts : List (String × String)
  slams : List (String × String)
  optNargs : List (String × Nat)
  optChoices : List (String × String)
  deriving DecidableEq, Repr

/-- All table entries emitted for one flattened tree, in flattener
order. -/
def bashTables (rootName : String) (root : Node) : BashTables :=
  (flatten rootName root).foldl
    (fun T pn =>
      { subcmds := T.subcmds ++ [(pn.1, bashSubcmdsValue pn.2)],
        opts := T.opts ++ [(pn.1, bashOptsValue pn.2)],
        slams := T.slams ++ [(pn.1, bashSlamoptsValue pn.2)],
        optNargs := T.optNargs ++ bashOptNargsEntries pn.1 pn.2,
        optChoices := T.optChoices ++ bashOptChoicesEntries pn.1 pn.2 })
    ⟨[], [], [], [], []⟩

/-- Associative-array lookup: the value at a key, or the empty string
when the key is unset (bash expands an unset subscript to `""`). -/
def tabGet (t : List (String × String)) (k : String) : String :=
  ((t.find? fun e => e.1 == k).map (fun e => e.2)).getD ""

/-- Arity lookup with the script's `[ -n "$toskip" ] || toskip=0`
default. -/
def tabGetNat (t : List (String × Nat)) (k : String) : Nat :=
  ((t.find? fun e => e.1 == k).map (fun e => e.2)).getD 0

/-! ### Bash generator: runtime parsing algorithm (`EPILOGUE_FMT`)

Translation of the generated `_parse_line` function.  The scan walks
`COMP_WORDS[1] .. COMP_WORDS[len-2]` updating
`(curcmd, curopt, toskip, nomoreopts)` exactly as the `while` loop does;
the table parameters are the runtime views of the associative arrays. -/

structure ParseResult where
  curcmd : String
  curopt : String
  toskip : Nat
  deriving DecidableEq, Repr

def parseStep (subcmds : String → List String) (optNargs : String → Nat)
    (slams : String → List String) :
    List String → String → String → Nat → Bool → ParseResult
  | [], curcmd, curopt, toskip, _ => ⟨curcmd, curopt, toskip⟩
  | w :: rest, curcmd, curopt, toskip, nomoreopts =>
    if w = "--" then
      parseStep subcmds optNargs slams rest curcmd "" toskip true
    else if toskip > 0 then
      parseStep subcmds optNargs slams rest curcmd curopt (toskip - 1) nomoreopts
    else if !nomoreopts && pyStartswith w "-" then
      if (slams curcmd).any (fun opt => w != opt && pyStartswith w opt) then
        parseStep subcmds optNargs slams rest curcmd curopt toskip nomoreopts
      else
        parseStep subcmds optNargs slams rest curcmd w (optNargs (curcmd ++ " " ++ w)) nomoreopts
    else if (subcmds curcmd).contains w then
      parseStep subcmds optNargs slams rest (curcmd ++ " " ++ w) curopt toskip nomoreopts
    else
      ⟨curcmd, curopt, toskip⟩

def bashParseLine (subcmds : String → List String) (optNargs : String → Nat)
    (slams : String → List String) (words : List String) (cword : Nat) : ParseResult :=
  let compword := words.getD cword ""
  let boundary := words.length - 2
  let toProcess := (words.drop 1).take boundary
  let r := parseStep subcmds optNargs slams toProcess (words.getD 0 "") "" 0 false
  let r := if r.toskip = 0 then { r with curopt := "" } else r
  if r.toskip = 0 && (subcmds r.curcmd).contains compword then
    { curcmd := r.curcmd ++ " " ++ compword, curopt := "", toskip := r.toskip }
  else r

/-- Translation of `_add_match_to_compreply`: keep the candidates that
extend the in-progress word. -/
def addMatchToCompreply (choicesStr : String) (curword : String) : List String :=
  (shellWords choicesStr).filter fun choice => pyStartswith choice curword

/-- Translation of `_add_match_for_cmdopt`. -/
def addMatchForCmdopt (optChoices : List (String × String)) (key curword : String) :
    List String :=
  let choices := tabGet optChoices key
  if choices ≠ "" then addMatchToCompreply choices curword else []

/-- Translation of the generated `_bash` completion-reply function:
parse the line, then select candidates by case analysis on the
in-progress word. -/
def bashCompReply (T : BashTables) (words : List String) (cword : Nat) : List String :=
  let curword := words.getD cword ""
  let p := bashParseLine (fun c => shellWords (tabGet T.subcmds c))
    (tabGetNat T.optNargs) (fun c => shellWords (tabGet T.slams c)) words cword
  let curcmdWcuropt := p.curcmd ++ " " ++ p.curopt
  if pyStartswith curword "-" then
    addMatchToCompreply (tabGet T.opts p.curcmd) curword
  else if curword = "" then
    if p.toskip > 0 then addMatchForCmdopt T.optChoices curcmdWcuropt curword
    else shellWords (tabGet T.subcmds p.curcmd)
  else
    if p.curopt = "" then addMatchToCompreply (tabGet T.subcmds p.curcmd) curword
    else addMatchForCmdopt T.optChoices curcmdWcuropt curword

/-- Final line of the bash epilogue:
`complete -F {x.slug}_bash {x.root_cmd.name}`.  Note the template reads
`root_cmd.name`, not the resolved `self.name`. -/
def bashRegistrationLine (st : CompleterState) : String :=
  "complete -F " ++ st.slug ++ "_bash " ++ pyStrOfOpt st.rootCmdName

/-! ### Zsh generator (`zsh_impl.py`) -/

/-- Characters escaped by `_ZSH_HELP_ESC_RE`. -/
def zshHelpEscChar (c : Char) : List Char :=
  if c = '`' || c = '"' || c = ':' || c = '[' || c = ']' then ['\\', c] else [c]

def zshHelpEsc (s : String) : String := String.mk (s.data.flatMap zshHelpEscChar)

def defaultEagerExitOpts : List String := ["-h", "--help"]

/-- The value-placeholder annotation of an option spec: a parenthesized
choice list when the option's type is a `Choice`, a free-value
placeholder when it consumes arguments, nothing for booleans. -/
def zshArgspec (o : ClickOpt) : String :=
  match o.choices with
  | some cs => ": :(" ++ String.intercalate " " cs ++ ")"
  | none => if computeNargs o > 0 then ": :( )" else ""

/-- Escaped help annotation (`("[" + escaped + "]") if o.help else ""`;
an empty help string is falsy). -/
def zshHelptext (o : ClickOpt) : String :=
  match o.help with
  | some h => if h = "" then "" else "[" ++ zshHelpEsc h ++ "]"
  | none => ""

/-- `+` marker on two-character spellings of one-argument options
(option slamming). -/
def zshSlamSuffix (nargs : Nat) (f : String) : String :=
  if f.length = 2 && nargs = 1 then f ++ "+" else f

/-- `=` marker on long spellings of one-argument options
(`--flag=value`); in the source this test runs on the output of the
slam-marker pass. -/
def zshEqSuffix (nargs : Nat) (f : String) : String :=
  if pyStartswith f "--" && nargs = 1 then f ++ "=" else f

/-- The fully transformed spelling of one flag: the source applies
three successive list comprehensions (`+` pass, `=` pass, `*` pass) to
the flag list, which compose to this per-flag transformation. -/
def zshFlagSpelling (o : ClickOpt) (f : String) : String :=
  let f2 := zshEqSuffix (computeNargs o) (zshSlamSuffix (computeNargs o) f)
  if isRepeatable o then "*" ++ f2 else f2

/-- The leading exclusion group of an option spec: all raw aliases of
the option (dropped for repeatable options), extended with the
eager-exit marker `- :` when the first transformed spelling is one of
the configured eager-exit flags. -/
def zshExcludes (eagerExit : List String) (o : ClickOpt) : String :=
  let raw := optStrs o
  let e0 := String.intercalate " " raw
  let e1 := if isRepeatable o then "" else e0
  let flagsHead := (raw.map (zshFlagSpelling o)).headD ""
  let e2 := if eagerExit.contains flagsHead
    then e1 ++ (if e1 ≠ "" then " " else "") ++ "- :" else e1
  if e2 ≠ "" then "(" ++ e2 ++ ")" else ""

/-- Translation of `_option_descs`: one quoted argument-spec string per
flag spelling.  (The source special-cases a single-spelling option, but
it yields the same string the general loop would.) -/
def zshOptionDescs (eagerExit : List String) (o : ClickOpt) : List String :=
  (optStrs o).map fun f =>
    "\"" ++ zshExcludes eagerExit o ++ zshFlagSpelling o f
      ++ zshHelptext o ++ zshArgspec o ++ "\""

def zshAllOptionDescs (eagerExit : List String) (n : Node) : List String :=
  (visibleOptionsOf n).flatMap (zshOptionDescs eagerExit)

/-- Translation of `_positional_arg_desc`.  (`compute_nargs` is applied
to the argument, whose `nargs` is read directly since arguments carry
no flag attributes.) -/
def zshPositionalArgDesc (argPosition : Nat) (a : ClickArg) : String :=
  let n := if a.nargs = -1 then "*" else toString (argPosition + 1)
  let optColon := if a.required then "" else ":"
  "\"" ++ n ++ optColon ++ ":" ++ a.humanReadableName ++ ": \""

def zshAllPositionalArgDescs (n : Node) : List String :=
  (argumentsOf n).mapIdx zshPositionalArgDesc

/-- Translation of `ZshCompleter.cmd_completer` for a leaf.  The source
indexes `all_descs[-1]` unconditionally, an `IndexError` when the spec
list is empty; that failure is surfaced as an `Except.error`. -/
def zshCmdCompleterLines (slug cmdslug : String) (n : Node) : Except String (List String) :=
  let allDescs := zshAllOptionDescs defaultEagerExitOpts n ++ zshAllPositionalArgDescs n
  match allDescs.getLast? with
  | none => .error "IndexError: list index out of range"
  | some last =>
    .ok ([slug ++ "_cmd_" ++ cmdslug ++ "() \x7b", "  _arguments \\"]
      ++ (allDescs.dropLast.map fun d => "    " ++ d ++ "  \\")
      ++ ["    " ++ last, "\x7d"])

/-- Names listed by `ZshCompleter.group_completer`: the describer
entries and the dispatch `case` branches both iterate
`this_group.commands.keys()` — all children, with no hidden filter. -/
def zshSubcommandNames : Node → List String
  | .leaf _ _ _ => []
  | .group _ _ _ cs => cs.map Node.name

/-! ### Façade (`__init__.py`) -/

inductive CompleterKind where
  | bash
  | zsh
  deriving DecidableEq, Repr

/-- Python `os.path.basename` for slash-separated paths. -/
def osPathBasename (p : String) : String := (p.splitOn "/").getLastD ""

/-- Translation of `_get_completer_cls`: default the shell token from
the `SHELL` environment variable's basename, then map `"zsh"` to the
zsh completer and anything else to the bash completer
(`{...}.get(shell, BashCompleter)`). -/
def getCompleterCls (shell : Option String) (envSHELL : Option String) : CompleterKind :=
  let sh := match shell with
    | none =>
      match envSHELL with
      | some v => if osPathBasename v = "zsh" then "zsh" else "bash"
      | none => "bash"
    | some s => s
  if sh = "zsh" then .zsh
  else if sh = "bash" then .bash
  else .bash

/-! ### Reference traversal for the flattener specification

An independently defined pre-order walk: each node first, then each of
its visible children's subtrees in declaration order, leaves and groups
interleaved.  The flattener is compared against it up to permutation:
agreement shows every visible node is produced exactly once and hidden
subtrees never. -/

mutual
def visibleNodes (path : String) (n : Node) : List (String × Node) :=
  match n with
  | .leaf nm h ps => [(path, .leaf nm h ps)]
  | .group nm h ps cs => (path, .group nm h ps cs) :: visibleNodesList path cs

def visibleNodesList (path : String) : List Node → List (String × Node)
  | [] => []
  | c :: rest =>
    (if c.hidden then [] else visibleNodes (path ++ " " ++ c.name) c)
      ++ visibleNodesList path rest
end

/-- Structural induction over command trees with a membership-based
hypothesis for a group's children. -/
theorem Node.inductionOn {P : Node → Prop}
    (hleaf : ∀ nm h ps, P (Node.leaf nm h ps))
    (hgroup : ∀ nm h ps cs, (∀ c ∈ cs, P c) → P (Node.group nm h ps cs)) :
    ∀ n, P n
  | .leaf nm h ps => hleaf nm h ps
  | .group nm h ps cs => hgroup nm h ps cs fun c hc =>
      Node.inductionOn hleaf hgroup c
termination_by n => sizeOf n
decreasing_by
  have hlt := List.sizeOf_lt_of_mem hc
  simp only [Node.group.sizeOf_spec]
  omega

/-! ### Substring test (for stating containment properties) -/

def strContainsAux (sub : List Char) : List Char → Bool
  | [] => sub.isPrefixOf []
  | c :: rest => sub.isPrefixOf (c :: rest) || strContainsAux sub rest

/-- `sub` occurs as a contiguous substring of `s`. -/
def strContains (s sub : String) : Bool := strContainsAux sub.data s.data

/-! ### Concrete fixtures used by the claims -/

/-- An option `-F` and `--format` of arity 1 with choices `{json, text}`. -/
def optFormat : ClickOpt :=
  { opts := ["-F", "--format"], secondaryOpts := [], isFlag := false, count := false,
    multiple := false, nargs := 1, choices := some ["json", "text"], help := none,
    hidden := false }

/-- Root group `tool` with one visible leaf `sub` carrying `optFormat`. -/
def tree1 : Node := .group "tool" false [] [.leaf "sub" false [.opt optFormat]]

/-- Root group `tool` with a visible leaf `pub` and a hidden leaf `sec`. -/
def hiddenChildTree : Node :=
  .group "tool" false [] [.leaf "pub" false [], .leaf "sec" true []]

/-- A tree whose two distinct paths `tool a-b` and `tool a b` collide
under slugification. -/
def cexTree : Node :=
  .group "tool" false []
    [.leaf "a-b" false [], .group "a" false [] [.leaf "b" false []]]

/-- An arity-1 option whose single spelling `-` is shorter than two
characters. -/
def dashOnlyOpt : ClickOpt :=
  { opts := ["-"], secondaryOpts := [], isFlag := false, count := false,
    multiple := false, nargs := 1, choices := none, help := none, hidden := false }

/-! ### Claim theorems -/

/-- C1: under the generated bash runtime parsing algorithm, the token
sequence `["tool", "sub", "-F", ""]` with the cursor on the empty
trailing word — against the tables generated for `tree1`, where `sub`
is a visible subcommand of `tool` and `-F` an option of `tool sub` with
effective arity 1 and choices `{json, text}` — resolves
`curcmd="tool sub"`, `curopt="-F"`, `toskip=1`, and the candidate set
offered is exactly `{json, text}`. -/
theorem c1_bash_runtime_scenario :
    (computeNargs optFormat = 1 ∧ optFormat.choices = some ["json", "text"]
      ∧ shellWords (tabGet (bashTables "tool" tree1).subcmds "tool") = ["sub"])
    ∧ (bashParseLine
        (fun c => shellWords (tabGet (bashTables "tool" tree1).subcmds c))
        (tabGetNat (bashTables "tool" tree1).optNargs)
        (fun c => shellWords (tabGet (bashTables "tool" tree1).slams c))
        ["tool", "sub", "-F", ""] 3
        = { curcmd := "tool sub", curopt := "-F", toskip := 1 })
    ∧ bashCompReply (bashTables "tool" tree1) ["tool", "sub", "-F", ""] 3
        = ["json", "text"] := by
  decide

/-- C3: the code does not honour the claim — the bash subcommand table
entry for a group and the zsh subcommand-description/dispatch name
lists include hidden direct children.  At `hiddenChildTree` (whose
child `sec` is hidden), the emitted subcommand list names `sec`, even
though the flattener itself never yields the hidden node. -/
theorem c3_hidden_child_named_in_tables :
    tabGet (bashTables "tool" hiddenChildTree).subcmds "tool" = "pub sec"
    ∧ zshSubcommandNames hiddenChildTree = ["pub", "sec"]
    ∧ (Node.leaf "sec" true []).hidden = true
    ∧ (∀ e ∈ flatten "tool" hiddenChildTree, e.2.name ≠ "sec") := by
  decide

/-- C4: round-trip for `-F` and `--format` (arity 1, choices `{json, text}`)
on leaf `tool sub`: the bash choices table holds entries keyed
`tool sub -F` and `tool sub --format`, each valued `json text`; the zsh
specs for the option carry the `(json text)` placeholder on both flag
spellings and open with the exclusion group `(-F --format)` marking the
two spellings mutually exclusive. -/
theorem c4_choice_tables_and_specs :
    (("tool sub -F", "json text") ∈ (bashTables "tool" tree1).optChoices
      ∧ ("tool sub --format", "json text") ∈ (bashTables "tool" tree1).optChoices)
    ∧ zshOptionDescs defaultEagerExitOpts optFormat
        = ["\"(-F --format)-F+: :(json text)\"",
           "\"(-F --format)--format=: :(json text)\""]
    ∧ (∀ d ∈ zshOptionDescs defaultEagerExitOpts optFormat,
        strContains d "(json text)" = true ∧ strContains d "(-F --format)" = true) := by
  decide

/-- C7: the code does not honour the claim — the bash epilogue's
`complete` line interpolates `root_cmd.name`, not the resolved display
name.  Constructing the completer for a command named `tool` with the
explicit display name `mytool` derives every slug from `mytool` yet
registers the completion against `tool`. -/
theorem c7_registration_ignores_display_name :
    Completer.construct (some "tool") (some "mytool")
      = .ok { name := "mytool", rootCmdName := some "tool",
              rootSlug := "mytool", slug := "__mytool__comp" }
    ∧ bashRegistrationLine
        { name := "mytool", rootCmdName := some "tool",
          rootSlug := "mytool", slug := "__mytool__comp" }
        = "complete -F __mytool__comp_bash tool"
    ∧ "tool" ≠ "mytool" :=
  ⟨rfl, rfl, by decide⟩

/-- C8: constructing a completer raises exactly when neither a truthy
explicit display name was supplied nor the root command carries a
truthy name of its own; the failure is a constructor error, produced
before any generation entry point can run. -/
theorem c8_constructor_raises_iff_unnamed :
    ∀ (cmdOwnName commandName : Option String),
      (Completer.construct cmdOwnName commandName).isOk = false
        ↔ (pyTruthy commandName = false ∧ pyTruthy cmdOwnName = false) := by
  intro c n
  cases n with
  | none =>
    cases c with
    | none => simp [Completer.construct, pyOrOptStr, pyTruthy, Except.isOk, Except.toBool]
    | some s =>
      by_cases h : s = "" <;>
        simp [Completer.construct, pyOrOptStr, pyTruthy, h, Except.isOk, Except.toBool]
  | some s =>
    by_cases h : s = "" <;> cases c with
    | none => simp [Completer.construct, pyOrOptStr, pyTruthy, h, Except.isOk, Except.toBool]
    | some t =>
      by_cases ht : t = "" <;>
        simp [Completer.construct, pyOrOptStr, pyTruthy, h, ht, Except.isOk, Except.toBool]

/-- C9: dialect selection is total and never raises: an explicit token
selects zsh exactly when it equals `"zsh"` (any other explicit token,
`"bash"` included, yields the bash completer), and without an explicit
token zsh is selected exactly when the `SHELL` variable's basename is
`"zsh"`. -/
theorem c9_dialect_selection :
    ∀ (shell envSHELL : Option String),
      (getCompleterCls shell envSHELL = CompleterKind.zsh
        ↔ (shell = some "zsh"
            ∨ (shell = none ∧ envSHELL.map osPathBasename = some "zsh")))
      ∧ (getCompleterCls shell envSHELL = CompleterKind.zsh
          ∨ getCompleterCls shell envSHELL = CompleterKind.bash) := by
  intro shell env
  cases shell with
  | some s =>
    by_cases h : s = "zsh"
    · simp [getCompleterCls, h]
    · by_cases hb : s = "bash" <;> simp [getCompleterCls, h, hb]
  | none =>
    cases env with
    | none => simp [getCompleterCls]
    | some v =>
      by_cases h : osPathBasename v = "zsh" <;> simp [getCompleterCls, h]

/-- C10: the zsh leaf emitter fails by indexing the last element of an
empty spec list whenever a leaf has no visible option and no positional
argument, so generation errors instead of producing output. -/
theorem c10_zsh_empty_leaf_errors :
    ∀ (slug cmdslug : String) (n : Node),
      visibleOptionsOf n = [] → argumentsOf n = [] →
      zshCmdCompleterLines slug cmdslug n
        = .error "IndexError: list index out of range" := by
  intro slug cmdslug n h1 h2
  unfold zshCmdCompleterLines zshAllOptionDescs zshAllPositionalArgDescs
  rw [h1, h2]
  rfl

/-- Witness for C10 at a concrete empty leaf. -/
theorem c10_zsh_empty_leaf_errors_witness :
    zshCmdCompleterLines "__tool__comp" "tool_sub" (Node.leaf "sub" false [])
      = .error "IndexError: list index out of range" :=
  c10_zsh_empty_leaf_errors "__tool__comp" "tool_sub" (Node.leaf "sub" false []) rfl rfl

/-! ### Flattener lemmas for C2 -/

theorem leafEntries_cons (path : String) (c : Node) (rest : List Node) :
    leafEntries path (c :: rest)
      = (if !c.hidden && !c.isGroup then [(path ++ " " ++ c.name, c)] else [])
        ++ leafEntries path rest := by
  by_cases h : (!c.hidden && !c.isGroup) = true <;>
    simp [leafEntries, List.filter_cons, h]

theorem flattenGroups_cons (path : String) (c : Node) (rest : List Node) :
    flattenGroups path (c :: rest)
      = (if !c.hidden && c.isGroup then flatten (path ++ " " ++ c.name) c else [])
        ++ flattenGroups path rest := rfl

theorem visibleNodesList_cons (path : String) (c : Node) (rest : List Node) :
    visibleNodesList path (c :: rest)
      = (if c.hidden then [] else visibleNodes (path ++ " " ++ c.name) c)
        ++ visibleNodesList path rest := rfl

theorem perm_middle_front {α : Type} (A F G V W : List α)
    (hF : List.Perm F V) (hAG : List.Perm (A ++ G) W) :
    List.Perm (A ++ (F ++ G)) (V ++ W) := by
  have h1 : List.Perm (A ++ (F ++ G)) (F ++ (A ++ G)) := by
    rw [← List.append_assoc]
    refine ((List.perm_append_comm).append_right _).trans ?_
    rw [List.append_assoc]
  exact h1.trans (List.Perm.append hF hAG)

theorem flattenChildren_perm (path : String) (cs : List Node)
    (IH : ∀ c ∈ cs, ∀ p, List.Perm (flatten p c) (visibleNodes p c)) :
    List.Perm (leafEntries path cs ++ flattenGroups path cs)
      (visibleNodesList path cs) := by
  induction cs with
  | nil => simp [leafEntries, flattenGroups, visibleNodesList]
  | cons c rest ih =>
    have ihr := ih fun c' hc' => IH c' (List.mem_cons_of_mem _ hc')
    rw [leafEntries_cons, flattenGroups_cons, visibleNodesList_cons]
    cases c with
    | leaf nm h ps =>
      cases h with
      | true => simpa [Node.hidden, Node.isGroup] using ihr
      | false =>
        simp [Node.hidden, Node.isGroup, Node.name, visibleNodes]
        exact ihr
    | group nm h ps cs' =>
      cases h with
      | true => simpa [Node.hidden, Node.isGroup] using ihr
      | false =>
        have hF := IH (.group nm false ps cs') (List.mem_cons_self _ _)
          (path ++ " " ++ nm)
        simp [Node.hidden, Node.isGroup, Node.name]
        exact perm_middle_front _ _ _ _ _ hF ihr

theorem flatten_perm_visibleNodes :
    ∀ (n : Node) (path : String), List.Perm (flatten path n) (visibleNodes path n) :=
  Node.inductionOn
    (fun nm h ps path => by
      simp only [flatten, visibleNodes]
      exact List.Perm.refl _)
    (fun nm h ps cs IH path => by
      simp only [flatten, visibleNodes]
      exact List.Perm.cons _ (flattenChildren_perm path cs fun c hc p => IH c hc p))

theorem visibleNodesList_mem (path : String) (cs : List Node) (e : String × Node)
    (he : e ∈ visibleNodesList path cs) :
    ∃ c ∈ cs, c.hidden = false ∧ ∃ p, e ∈ visibleNodes p c := by
  induction cs with
  | nil => simp [visibleNodesList] at he
  | cons c rest ih =>
    rw [visibleNodesList_cons] at he
    rcases List.mem_append.mp he with h1 | h2
    · by_cases hh : c.hidden = true
      · simp [hh] at h1
      · exact ⟨c, List.mem_cons_self _ _, Bool.eq_false_iff.mpr hh,
          path ++ " " ++ c.name, by simpa [hh] using h1⟩
    · obtain ⟨c', hc', hh', p, hp⟩ := ih h2
      exact ⟨c', List.mem_cons_of_mem _ hc', hh', p, hp⟩

theorem visibleNodes_not_hidden :
    ∀ (n : Node), n.hidden = false →
      ∀ (path : String), ∀ e ∈ visibleNodes path n, e.2.hidden = false :=
  Node.inductionOn
    (fun nm h ps hh path e he => by
      simp only [visibleNodes, List.mem_singleton] at he
      rw [he]
      exact hh)
    (fun nm h ps cs IH hh path e he => by
      simp only [visibleNodes] at he
      rcases List.mem_cons.mp he with he1 | he2
      · rw [he1]; exact hh
      · obtain ⟨c, hc, hch, p, hp⟩ := visibleNodesList_mem path cs e he2
        exact IH c hc hch p e hp)

theorem flattenGroups_eq_flatMap (path : String) (cs : List Node) :
    flattenGroups path cs
      = (cs.filter fun c => !c.hidden && c.isGroup).flatMap
          (fun c => flatten (path ++ " " ++ c.name) c) := by
  induction cs with
  | nil => rfl
  | cons c rest ih =>
    rw [flattenGroups_cons, List.filter_cons]
    by_cases h : (!c.hidden && c.isGroup) = true <;> simp [h, ih]

/-- C2: the flattener yields, for each group, the group itself first,
then its direct visible leaf children in declaration order, then the
full subtree of each direct visible group child in declaration order
(third conjunct); it yields exactly the visible occurrences — each
once — as witnessed by agreement up to permutation with the reference
pre-order traversal (first conjunct); and when the root itself is
visible, no yielded node is hidden (second conjunct; hidden children
are filtered together with their whole subtrees). -/
theorem c2_flattener_order_and_visibility :
    ∀ (path : String) (n : Node),
      List.Perm (flatten path n) (visibleNodes path n)
      ∧ (n.hidden = false → ∀ e ∈ flatten path n, e.2.hidden = false)
      ∧ (∀ (nm : String) (h : Bool) (ps : List Param) (cs : List Node),
          flatten path (Node.group nm h ps cs)
            = (path, Node.group nm h ps cs)
              :: (leafEntries path cs
                  ++ ((cs.filter fun c => !c.hidden && c.isGroup).flatMap
                        fun c => flatten (path ++ " " ++ c.name) c))) := by
  intro path n
  refine ⟨flatten_perm_visibleNodes n path, fun hh e he => ?_, fun nm h ps cs => ?_⟩
  · exact visibleNodes_not_hidden n hh path e
      ((flatten_perm_visibleNodes n path).mem_iff.mp he)
  · rw [← flattenGroups_eq_flatMap]
    rfl

/-- Witness for C2 at the concrete tree with a hidden child. -/
theorem c2_flattener_order_and_visibility_witness :
    List.Perm (flatten "tool" hiddenChildTree) (visibleNodes "tool" hiddenChildTree)
    ∧ (∀ e ∈ flatten "tool" hiddenChildTree, e.2.hidden = false) :=
  ⟨(c2_flattener_order_and_visibility "tool" hiddenChildTree).1,
   fun e he =>
     (c2_flattener_order_and_visibility "tool" hiddenChildTree).2.1 rfl e he⟩

/-! ### String lemmas for C5 and C6 -/

theorem isPrefixOf_append_self {α : Type} [BEq α] [LawfulBEq α] (l t : List α) :
    l.isPrefixOf (l ++ t) = true := by
  induction l with
  | nil => simp [List.isPrefixOf]
  | cons a as ih => simp [List.isPrefixOf, ih]

theorem pyEndswith_append (s t : String) : pyEndswith (s ++ t) t = true := by
  simp only [pyEndswith, String.data_append, List.isSuffixOf, List.reverse_append]
  exact isPrefixOf_append_self _ _

theorem two_char_plus_not_ddash (f : String) (a b : Char)
    (hd : f.data = [a, b]) (hne : f ≠ "--") :
    pyStartswith (f ++ "+") "--" = false := by
  have hcon : ¬(a = '-' ∧ b = '-') := by
    intro ⟨ha, hb⟩
    exact hne (String.ext (by rw [hd, ha, hb]))
  simp only [pyStartswith, String.data_append, hd]
  show List.isPrefixOf ['-', '-'] ([a, b] ++ ['+']) = false
  simp only [List.cons_append, List.nil_append, List.isPrefixOf]
  cases hA : ('-' == a) with
  | false => simp
  | true =>
    cases hB : ('-' == b) with
    | false => simp
    | true =>
      exact (hcon ⟨(beq_iff_eq.mp hA).symm, (beq_iff_eq.mp hB).symm⟩).elim

/-- C5 counterexample: the claim as stated fails at the arity-1 option
whose sole spelling is the one-character flag `-`: that spelling is
shorter than 3 characters and lands in the bash slam-options list, yet
its zsh spelling gains no `+` marker (the zsh pass requires length
exactly 2). -/
theorem c5_counterexample :
    ¬ (∀ (o : ClickOpt) (f : String), f ∈ optStrs o →
        (computeNargs o = 1 → f.length < 3 →
          f ∈ slamopts o ∧ pyEndswith (zshFlagSpelling o f) "+" = true)
        ∧ (computeNargs o = 1 → pyStartswith f "--" = true →
          pyEndswith (zshFlagSpelling o f) "=" = true ∧ f ∉ slamopts o)
        ∧ (computeNargs o ≠ 1 → slamopts o = [])) := by
  intro h
  have h2 := (h dashOnlyOpt "-" (by decide)).1 (by decide) (by decide)
  exact absurd h2.2 (by decide)

/-- C5 amended: for a visible option of effective arity 1, a spelling
shorter than 3 characters appears in the slam-options list; a spelling
of exactly two characters other than the literal `--` moreover carries
the `+` marker in its zsh spelling; a spelling starting with `--` of
length at least 3 carries the `=` marker and is not slammable; an
option of other arity contributes nothing to the slam-options list;
and every spelling produces its quoted spec entry in the option's zsh
spec list. -/
theorem c5_slamming_amended :
    ∀ (o : ClickOpt) (f : String), f ∈ optStrs o →
      (computeNargs o = 1 → f.length < 3 → f ∈ slamopts o)
      ∧ (computeNargs o = 1 → f.length = 2 → f ≠ "--" →
          pyEndswith (zshFlagSpelling o f) "+" = true ∧ f ∈ slamopts o)
      ∧ (computeNargs o = 1 → pyStartswith f "--" = true → 3 ≤ f.length →
          pyEndswith (zshFlagSpelling o f) "=" = true ∧ f ∉ slamopts o)
      ∧ (computeNargs o ≠ 1 → slamopts o = [])
      ∧ (∀ eagerExit, "\"" ++ zshExcludes eagerExit o ++ zshFlagSpelling o f
            ++ zshHelptext o ++ zshArgspec o ++ "\"" ∈ zshOptionDescs eagerExit o) := by
  intro o f hmem
  have memslam : computeNargs o = 1 → f.length < 3 → f ∈ slamopts o := by
    intro h1 h2
    simp only [slamopts, h1, ne_eq, not_true_eq_false, if_false]
    exact List.mem_filter.mpr ⟨hmem, by simpa using h2⟩
  refine ⟨memslam, ?_, ?_, ?_, ?_⟩
  · intro h1 h2 h3
    have h2' : f.data.length = 2 := h2
    obtain ⟨a, b, hd⟩ := List.length_eq_two.mp h2'
    have hplus : zshSlamSuffix (computeNargs o) f = f ++ "+" := by
      simp [zshSlamSuffix, h1, h2]
    have hnodd : pyStartswith (f ++ "+") "--" = false :=
      two_char_plus_not_ddash f a b hd h3
    have heq : zshEqSuffix (computeNargs o) (f ++ "+") = f ++ "+" := by
      simp [zshEqSuffix, hnodd]
    refine ⟨?_, memslam h1 (by omega)⟩
    simp only [zshFlagSpelling, hplus, heq]
    cases hr : isRepeatable o
    · simpa using pyEndswith_append f "+"
    · simp only [if_true]
      rw [← String.append_assoc]
      exact pyEndswith_append _ "+"
  · intro h1 h2 h3
    have hs : zshSlamSuffix (computeNargs o) f = f := by
      have hlen : f.length ≠ 2 := by omega
      simp [zshSlamSuffix, hlen]
    have he : zshEqSuffix (computeNargs o) f = f ++ "=" := by
      simp [zshEqSuffix, h1, h2]
    constructor
    · simp only [zshFlagSpelling, hs, he]
      cases hr : isRepeatable o
      · simpa using pyEndswith_append f "="
      · simp only [if_true]
        rw [← String.append_assoc]
        exact pyEndswith_append _ "="
    · intro hcontra
      rw [slamopts, if_neg (by simp [h1])] at hcontra
      have := (List.mem_filter.mp hcontra).2
      simp only [decide_eq_true_eq] at this
      omega
  · intro h1
    simp [slamopts, h1]
  · intro eagerExit
    exact List.mem_map_of_mem _ hmem

/-- Witness for C5 at the concrete `-F` and `--format` spellings of
`optFormat`. -/
theorem c5_slamming_amended_witness :
    ("-F" ∈ slamopts optFormat
      ∧ pyEndswith (zshFlagSpelling optFormat "-F") "+" = true)
    ∧ (pyEndswith (zshFlagSpelling optFormat "--format") "=" = true
      ∧ "--format" ∉ slamopts optFormat) := by
  have h1 := c5_slamming_amended optFormat "-F" (by decide)
  have h2 := c5_slamming_amended optFormat "--format" (by decide)
  have p1 := h1.2.1 (by decide) (by decide) (by decide)
  have p2 := h2.2.2.1 (by decide) (by decide) (by decide)
  exact ⟨⟨p1.2, p1.1⟩, p2⟩

/-! ### Slug injectivity lemmas for C6 -/

theorem slugifyChar_leftInverse (c : Char) (h1 : c ≠ '-') (h2 : c ≠ '_') :
    (if slugifyChar c = '_' then ' ' else slugifyChar c) = c := by
  by_cases hc : c = ' '
  · simp [slugifyChar, hc]
  · simp [slugifyChar, hc, h1, h2]

theorem map_slugify_roundtrip (l : List Char)
    (h : ∀ c ∈ l, c ≠ '-' ∧ c ≠ '_') :
    (l.map slugifyChar).map (fun c => if c = '_' then ' ' else c) = l := by
  induction l with
  | nil => rfl
  | cons c rest ih =>
    have hc := h c (List.mem_cons_self _ _)
    have ihr := ih fun c' hc' => h c' (List.mem_cons_of_mem _ hc')
    simp only [List.map_cons, ihr, List.cons.injEq, and_true]
    exact slugifyChar_leftInverse c hc.1 hc.2

/-- C6 counterexample: slugification is not injective on the paths of
one flattened run — `cexTree` yields both `tool a-b` and `tool a b`,
whose slugs coincide, so the claim that every pair of distinct yielded
nodes has distinct slugs is false. -/
theorem c6_counterexample :
    ¬ ((flatten "tool" cexTree).Pairwise
        fun e1 e2 => slugify e1.1 ≠ slugify e2.1) := by
  decide

/-- C6 amended: within one run, the slugs of two distinct yielded paths
are distinct provided neither path contains a hyphen or an underscore
(that is, no command name uses those characters — otherwise distinct
paths such as `tool a-b` and `tool a b` can collide). -/
theorem c6_slug_uniqueness_amended :
    ∀ (rootName : String) (root : Node) (e1 e2 : String × Node),
      e1 ∈ flatten rootName root → e2 ∈ flatten rootName root →
      (∀ c ∈ e1.1.data, c ≠ '-' ∧ c ≠ '_') →
      (∀ c ∈ e2.1.data, c ≠ '-' ∧ c ≠ '_') →
      e1.1 ≠ e2.1 → slugify e1.1 ≠ slugify e2.1 := by
  intro rootName root e1 e2 h1 h2 hc1 hc2 hne contra
  apply hne
  have hdata : e1.1.data.map slugifyChar = e2.1.data.map slugifyChar := by
    simpa [slugify] using congrArg String.data contra
  apply String.ext
  rw [← map_slugify_roundtrip e1.1.data hc1, hdata,
    map_slugify_roundtrip e2.1.data hc2]

/-- A two-leaf tree whose names avoid hyphens and underscores. -/
def witTree : Node :=
  .group "tool" false [] [.leaf "alpha" false [], .leaf "beta" false []]

/-- Witness for the amended C6 on `witTree`. -/
theorem c6_slug_uniqueness_amended_witness :
    slugify "tool alpha" ≠ slugify "tool beta" :=
  c6_slug_uniqueness_amended "tool" witTree
    ("tool alpha", .leaf "alpha" false []) ("tool beta", .leaf "beta" false [])
    (by decide) (by decide) (by decide) (by decide) (by decide)
